import Mathlib

/-
Verification of the quirm image-proxy edge worker.

Each Go source construct that the claims touch is embedded as an executable
Lean definition; machine integers are modelled as Nat (with explicit
reduction mod 2^32 where the code relies on 32-bit wraparound), Go maps of
query parameters as association lists, and fallible operations as
Option/Except.  External libraries (libvips, ristretto, the AWS SDK) are
modelled from their documented semantics at the granularity the code uses.
-/

set_option maxRecDepth 10000

/-! ## Bytes, hex, UTF-8 -/

/-- Reduce to a 32-bit word, as Go uint32 arithmetic does. -/
def w32 (n : Nat) : Nat := n % 4294967296

/-- 32-bit rotate right. -/
def rotr (n x : Nat) : Nat := w32 ((x >>> n) ||| (x <<< (32 - n)))

/-- Big-endian byte expansion of a number into a fixed number of bytes. -/
def beBytes : Nat → Nat → List Nat
  | 0, _ => []
  | k + 1, n => beBytes k (n / 256) ++ [n % 256]

/-- Big-endian word from a byte list. -/
def beWord (bs : List Nat) : Nat := bs.foldl (fun acc b => acc * 256 + b) 0

/-- Split a byte list into chunks of k bytes (k positive); fuel-driven so
that the kernel can evaluate it. -/
def chunksOfAux (k : Nat) : Nat → List Nat → List (List Nat)
  | 0, _ => []
  | _, [] => []
  | fuel + 1, l => l.take k :: chunksOfAux k fuel (l.drop k)

def chunksOf (k : Nat) (l : List Nat) : List (List Nat) := chunksOfAux k l.length l

/-- UTF-8 encoding of a unicode scalar value, byte by byte. -/
def utf8Char (c : Nat) : List Nat :=
  if c < 128 then [c]
  else if c < 2048 then [192 + c / 64, 128 + c % 64]
  else if c < 65536 then [224 + c / 4096, 128 + (c / 64) % 64, 128 + c % 64]
  else [240 + c / 262144, 128 + (c / 4096) % 64, 128 + (c / 64) % 64, 128 + c % 64]

/-- The raw bytes of a Go string (Go strings are UTF-8 byte slices). -/
def strBytes (s : String) : List Nat := (s.toList.map (fun ch => utf8Char ch.toNat)).flatten

def hexChar (n : Nat) : Char := "0123456789abcdef".toList.getD n '0'

def hexByte (b : Nat) : List Char := [hexChar (b / 16), hexChar (b % 16)]

/-- Lowercase hex rendering of a byte list, as Go hex.EncodeToString. -/
def hexStr (bs : List Nat) : String := String.mk (bs.map hexByte).flatten

/-! ## SHA-256 (crypto/sha256), executable -/

def sha256K : List Nat :=
  [1116352408, 1899447441, 3049323471, 3921009573, 961987163, 1508970993, 2453635748, 2870763221,
   3624381080, 310598401, 607225278, 1426881987, 1925078388, 2162078206, 2614888103, 3248222580,
   3835390401, 4022224774, 264347078, 604807628, 770255983, 1249150122, 1555081692, 1996064986,
   2554220882, 2821834349, 2952996808, 3210313671, 3336571891, 3584528711, 113926993, 338241895,
   666307205, 773529912, 1294757372, 1396182291, 1695183700, 1986661051, 2177026350, 2456956037,
   2730485921, 2820302411, 3259730800, 3345764771, 3516065817, 3600352804, 4094571909, 275423344,
   430227734, 506948616, 659060556, 883997877, 958139571, 1322822218, 1537002063, 1747873779,
   1955562222, 2024104815, 2227730452, 2361852424, 2428436474, 2756734187, 3204031479, 3329325298]

def sha256H0 : List Nat :=
  [1779033703, 3144134277, 1013904242, 2773480762, 1359893119, 2600822924, 528734635, 1541459225]

/-- SHA-256 message padding: append 0x80, zeros, then the 64-bit big-endian bit length. -/
def sha256pad (msg : List Nat) : List Nat :=
  let L := msg.length
  let z := (56 + 64 - ((L + 1) % 64)) % 64
  msg ++ [0x80] ++ List.replicate z 0 ++ beBytes 8 (8 * L)

/-- Extend the 16-word message schedule to 64 words (fuel-driven). -/
def sha256ext (w : Array Nat) : Nat → Array Nat
  | 0 => w
  | fuel + 1 =>
    let i := w.size
    let x15 := w[i - 15]!
    let x2 := w[i - 2]!
    let s0 := (rotr 7 x15) ^^^ (rotr 18 x15) ^^^ (x15 >>> 3)
    let s1 := (rotr 17 x2) ^^^ (rotr 19 x2) ^^^ (x2 >>> 10)
    sha256ext (w.push (w32 (w[i - 16]! + s0 + w[i - 7]! + s1))) fuel

structure Sha256State where
  a : Nat
  b : Nat
  c : Nat
  d : Nat
  e : Nat
  f : Nat
  g : Nat
  hh : Nat

def sha256round (st : Sha256State) (kw w : Nat) : Sha256State :=
  let S1 := (rotr 6 st.e) ^^^ (rotr 11 st.e) ^^^ (rotr 25 st.e)
  let ch := (st.e &&& st.f) ^^^ ((st.e ^^^ 4294967295) &&& st.g)
  let temp1 := w32 (st.hh + S1 + ch + kw + w)
  let S0 := (rotr 2 st.a) ^^^ (rotr 13 st.a) ^^^ (rotr 22 st.a)
  let maj := (st.a &&& st.b) ^^^ (st.a &&& st.c) ^^^ (st.b &&& st.c)
  let temp2 := w32 (S0 + maj)
  ⟨w32 (temp1 + temp2), st.a, st.b, st.c, w32 (st.d + temp1), st.e, st.f, st.g⟩

def sha256block (hs : List Nat) (chunk : List Nat) : List Nat :=
  let ws := sha256ext (((chunksOf 4 chunk).map beWord).toArray) 48
  let st0 : Sha256State := match hs with
    | [a, b, c, d, e, f, g, h8] => ⟨a, b, c, d, e, f, g, h8⟩
    | _ => ⟨0, 0, 0, 0, 0, 0, 0, 0⟩
  let fin := (sha256K.zip ws.toList).foldl (fun st p => sha256round st p.1 p.2) st0
  [w32 (st0.a + fin.a), w32 (st0.b + fin.b), w32 (st0.c + fin.c), w32 (st0.d + fin.d),
   w32 (st0.e + fin.e), w32 (st0.f + fin.f), w32 (st0.g + fin.g), w32 (st0.hh + fin.hh)]

/-- SHA-256 digest of a byte list, as 32 bytes. -/
def sha256 (msg : List Nat) : List Nat :=
  let hs := (chunksOf 64 (sha256pad msg)).foldl sha256block sha256H0
  (hs.map (beBytes 4)).flatten

def sha256hex (msg : List Nat) : String := hexStr (sha256 msg)

/-! ## HMAC-SHA-256 (crypto/hmac with sha256, block size 64) -/

def hmacSha256 (key msg : List Nat) : List Nat :=
  let k0 := if key.length > 64 then sha256 key else key
  let k1 := k0 ++ List.replicate (64 - k0.length) 0
  let ipad := k1.map (fun b => b ^^^ 0x36)
  let opad := k1.map (fun b => b ^^^ 0x5c)
  sha256 (opad ++ sha256 (ipad ++ msg))

def hmacSha256hex (key msg : String) : String := hexStr (hmacSha256 (strBytes key) (strBytes msg))

/-! ## Query parameter maps (net/url Values)

url.Values is a Go map from key to a list of values; we model it as an
association list whose order stands for the (arbitrary) map iteration
order, with Get returning the first value of the key, or "". -/

abbrev Values := List (String × List String)

def getParam (params : Values) (k : String) : String :=
  match params.find? (fun p => p.1 == k) with
  | some p => p.2.headD ""
  | none => ""

/-! ## Cache key derivation (pkg/cache/cache.go) -/

/-- GenerateKeyOriginal: sha256 hex of objectKey concatenated with the encoding. -/
def generateKeyOriginal (key encoding : String) : String :=
  sha256hex (strBytes (key ++ encoding))

/-- GenerateKeyProcessed: collect the parameter keys except the signature
field "s", sort them, and hash objectKey, then each key and its first
value in sorted key order, then the format. -/
def generateKeyProcessed (key : String) (params : Values) (format : String) : String :=
  let ks := List.insertionSort (· ≤ ·) ((params.map Prod.fst).filter (fun k => k != "s"))
  sha256hex (strBytes key ++
    (ks.map (fun k => strBytes k ++ strBytes (getParam params k))).flatten ++
    strBytes format)

/-! ## Lemmas about parameter lookup -/

theorem getParam_cons (x : String × List String) (l : Values) (k : String) :
    getParam (x :: l) k = if x.1 == k then x.2.headD "" else getParam l k := by
  simp only [getParam, List.find?_cons]
  cases hx : (x.1 == k) <;> simp [hx]

/-- Dropping the signature entries does not change lookups of other keys. -/
theorem getParam_filter_ne_s (v : Values) (k : String) (hk : (k != "s") = true) :
    getParam (v.filter (fun p => p.1 != "s")) k = getParam v k := by
  induction v with
  | nil => rfl
  | cons x t ih =>
    by_cases hx : (x.1 == k) = true
    · have hxs : (x.1 != "s") = true := by
        have : x.1 = k := by simpa using hx
        simpa [this] using hk
      simp [List.filter_cons, hxs, getParam_cons, hx]
    · cases hxs : (x.1 != "s") <;>
        simp [List.filter_cons, hxs, getParam_cons, hx, ih]

/-- With distinct keys, lookups only depend on the multiset of entries. -/
theorem getParam_eq_of_perm {l1 l2 : Values} (h : l1.Perm l2) :
    ∀ (_ : (l1.map Prod.fst).Nodup) (k : String), getParam l1 k = getParam l2 k := by
  induction h with
  | nil => intro _ _; rfl
  | cons x p ih =>
    intro nd k
    simp only [List.map_cons, List.nodup_cons] at nd
    simp [getParam_cons, ih nd.2 k]
  | swap x y l =>
    intro nd k
    simp only [List.map_cons, List.nodup_cons, List.mem_cons] at nd
    by_cases hy : (y.1 == k) = true
    · by_cases hx : (x.1 == k) = true
      · exfalso
        have h1 : x.1 = k := by simpa using hx
        have h2 : y.1 = k := by simpa using hy
        exact nd.1 (Or.inl (h2.trans h1.symm))
      · simp [getParam_cons, hx, hy]
    · simp [getParam_cons, hy]
  | trans p1 p2 ih1 ih2 =>
    intro nd k
    have nd2 := (p1.map Prod.fst).nodup nd
    rw [ih1 nd k, ih2 nd2 k]

theorem keys_filter (v : Values) :
    (v.filter (fun p => p.1 != "s")).map Prod.fst
      = (v.map Prod.fst).filter (fun k => k != "s") := by
  induction v with
  | nil => rfl
  | cons x t ih =>
    cases hx : (x.1 != "s") <;> simp [List.filter_cons, hx, ih]

theorem nodup_keys_filter {v : Values} (nd : (v.map Prod.fst).Nodup) :
    ((v.filter (fun p => p.1 != "s")).map Prod.fst).Nodup :=
  List.Nodup.sublist ((v.filter_sublist (p := fun p => p.1 != "s")).map Prod.fst) nd

/-- C1: GenerateKeyProcessed returns the same 256-bit hex digest for any two
query-parameter maps that agree, as multisets of entries, outside the
signature field s, independent of parameter order and of the presence or
value of s. -/
theorem generateKeyProcessed_stable (key format : String) (v1 v2 : Values)
    (nd1 : (v1.map Prod.fst).Nodup) (nd2 : (v2.map Prod.fst).Nodup)
    (hperm : (v1.filter (fun p => p.1 != "s")).Perm (v2.filter (fun p => p.1 != "s"))) :
    generateKeyProcessed key v1 format = generateKeyProcessed key v2 format := by
  have hkeys : ((v1.map Prod.fst).filter (fun k => k != "s")).Perm
      ((v2.map Prod.fst).filter (fun k => k != "s")) := by
    rw [← keys_filter, ← keys_filter]
    exact hperm.map Prod.fst
  have hsorted : List.insertionSort (· ≤ ·) ((v1.map Prod.fst).filter (fun k => k != "s")) =
      List.insertionSort (· ≤ ·) ((v2.map Prod.fst).filter (fun k => k != "s")) :=
    List.eq_of_perm_of_sorted
      ((List.perm_insertionSort _ _).trans (hkeys.trans (List.perm_insertionSort _ _).symm))
      (List.sorted_insertionSort _ _) (List.sorted_insertionSort _ _)
  have hget : ∀ k ∈ List.insertionSort (· ≤ ·) ((v2.map Prod.fst).filter (fun k => k != "s")),
      getParam v1 k = getParam v2 k := by
    intro k hk
    have hk2 : k ∈ (v2.map Prod.fst).filter (fun k => k != "s") :=
      (List.perm_insertionSort _ _).mem_iff.mp hk
    have hks : (k != "s") = true := (List.mem_filter.mp hk2).2
    calc getParam v1 k
        = getParam (v1.filter (fun p => p.1 != "s")) k := (getParam_filter_ne_s v1 k hks).symm
      _ = getParam (v2.filter (fun p => p.1 != "s")) k :=
          getParam_eq_of_perm hperm (nodup_keys_filter nd1) k
      _ = getParam v2 k := getParam_filter_ne_s v2 k hks
  show sha256hex _ = sha256hex _
  rw [hsorted]
  have hmap : (List.insertionSort (· ≤ ·) ((v2.map Prod.fst).filter (fun k => k != "s"))).map
        (fun k => strBytes k ++ strBytes (getParam v1 k))
      = (List.insertionSort (· ≤ ·) ((v2.map Prod.fst).filter (fun k => k != "s"))).map
        (fun k => strBytes k ++ strBytes (getParam v2 k)) :=
    List.map_congr_left (fun k hk => by rw [hget k hk])
  rw [hmap]

/-- Witness for C1 at a concrete reordered, signed versus unsigned pair. -/
theorem generateKeyProcessed_stable_witness :
    (([(("b" : String), ["2"]), ("a", ["1"]), ("s", ["sig"])] : Values).map Prod.fst).Nodup ∧
    (([(("a" : String), ["1"]), ("b", ["2"])] : Values).map Prod.fst).Nodup ∧
    generateKeyProcessed "img/a.jpg" [("b", ["2"]), ("a", ["1"]), ("s", ["sig"])] "webp" =
      generateKeyProcessed "img/a.jpg" [("a", ["1"]), ("b", ["2"])] "webp" :=
  ⟨by decide, by decide,
    generateKeyProcessed_stable "img/a.jpg" "webp" _ _ (by decide) (by decide) (by decide)⟩

/-! ## Origin fetcher failover (pkg/storage/s3.go)

An AWS SDK error is modelled by what the two errors.As probes in
shouldFailover can extract from it: an optional smithy API error code and
an optional HTTP response status.  A network or timeout error has neither. -/

structure S3Err where
  apiCode : Option String
  httpStatus : Option Int
deriving DecidableEq

/-- shouldFailover: typed not-found codes fail over; then HTTP statuses
404, 408, 429 and all statuses at least 500 fail over, other 4xx do not;
anything else (including errors with no HTTP response) fails over. -/
def shouldFailover (e : S3Err) : Bool :=
  if (match e.apiCode with
      | some code => code == "NoSuchKey" || code == "NotFound"
      | none => false) then
    true
  else
    match e.httpStatus with
    | some status =>
      if status == 404 || status == 408 || status == 429 then true
      else if status ≥ 500 then true
      else if status ≥ 400 ∧ status < 500 then false
      else true
    | none => true

/-- GetObject with failover: on a primary error, attempt the backup bucket
only when one is configured and shouldFailover holds; if the backup also
fails, return the primary error.  The second component records whether the
backup bucket was attempted. -/
def getObject (primary backup : Except S3Err (List Nat)) (backupBucket : String) :
    Except S3Err (List Nat) × Bool :=
  match primary with
  | .ok b => (.ok b, false)
  | .error e =>
    if backupBucket != "" && shouldFailover e then
      match backup with
      | .ok b => (.ok b, true)
      | .error _ => (.error e, true)
    else (.error e, false)

/-- The failure classes enumerated by the spec sentence: typed not-found,
HTTP 404, 408, 429, any HTTP 5xx, or a non-HTTP (network/timeout) error.
Stated from the claim, for comparison with shouldFailover. -/
def specFailoverClass (e : S3Err) : Bool :=
  (match e.apiCode with
   | some code => code == "NoSuchKey" || code == "NotFound"
   | none => false) ||
  (match e.httpStatus with
   | some status => status == 404 || status == 408 || status == 429 || status ≥ 500
   | none => true)

/-- C2 counterexample: an HTTP error with a 3xx status (for example the 301
PermanentRedirect S3 answers for a wrong-region bucket) is outside every
class the claim enumerates, yet the code does fail over on it, so the
stated if-and-only-if is false. -/
theorem getObject_failover_counterexample :
    specFailoverClass ⟨none, some 301⟩ = false ∧
    shouldFailover ⟨none, some 301⟩ = true ∧
    (getObject (.error ⟨none, some 301⟩) (.ok [1]) "backup").2 = true := by
  refine ⟨by decide, by decide, by decide⟩

/-- C2 amended: with a backup bucket configured, the backup is attempted
iff the primary failed with a typed not-found code, an HTTP 404, 408 or
429, an HTTP status at least 500, an HTTP status below 400, or a non-HTTP
error; equivalently every primary failure fails over except a 4xx other
than 404, 408, 429.  Whenever the backup is attempted and also fails, the
primary error is returned. -/
theorem getObject_failover (primary backup : Except S3Err (List Nat))
    (bucket : String) (hb : bucket ≠ "") :
    ((getObject primary backup bucket).2 = true ↔
      ∃ e, primary = .error e ∧
        ¬((match e.apiCode with
           | some code => code == "NoSuchKey" || code == "NotFound"
           | none => false) = false ∧
          ∃ s, e.httpStatus = some s ∧ 400 ≤ s ∧ s < 500 ∧ s ≠ 404 ∧ s ≠ 408 ∧ s ≠ 429)) ∧
    (∀ e e2, primary = .error e → backup = .error e2 →
      (getObject primary backup bucket).1 = .error e) := by
  constructor
  · cases primary with
    | ok b => simp [getObject]
    | error e =>
      have hb2 : (bucket != "") = true := by simpa using hb
      constructor
      · intro hatt
        refine ⟨e, rfl, ?_⟩
        rintro ⟨hcode, s, hs, h400, h500, h404, h408, h429⟩
        have : shouldFailover e = false := by
          simp only [shouldFailover, hcode, hs]
          have hs404 : (s == 404) = false := by simpa using h404
          have hs408 : (s == 408) = false := by simpa using h408
          have hs429 : (s == 429) = false := by simpa using h429
          have hge : ¬(s ≥ 500) := by omega
          have hrange : (400 ≤ s ∧ s < 500) := ⟨h400, h500⟩
          simp [hs404, hs408, hs429, hge, hrange]
        simp [getObject, hb2, this] at hatt
      · rintro ⟨e2, he2, hnot⟩
        have he : e2 = e := by
          have := he2
          simp only [Except.error.injEq] at this
          exact this.symm
        subst he
        have : shouldFailover e2 = true := by
          simp only [shouldFailover]
          by_cases hcode : (match e2.apiCode with
              | some code => code == "NoSuchKey" || code == "NotFound"
              | none => false) = true
          · simp [hcode]
          · have hcode2 : (match e2.apiCode with
                | some code => code == "NoSuchKey" || code == "NotFound"
                | none => false) = false := by
              simpa using hcode
            simp only [hcode2, if_false]
            cases hst : e2.httpStatus with
            | none => simp
            | some s =>
              by_cases h1 : (s == 404 || s == 408 || s == 429) = true
              · simp [h1]
              · by_cases h2 : s ≥ 500
                · simp [h1, h2]
                · by_cases h3 : 400 ≤ s ∧ s < 500
                  · exfalso
                    apply hnot
                    refine ⟨hcode2, s, hst, h3.1, h3.2, ?_, ?_, ?_⟩ <;>
                      (intro heq; subst heq; simp at h1)
                  · simp [h1, h2, h3]
        cases backup <;> simp [getObject, hb2, this]
  · intro e e2 hp hbk
    subst hp
    have hb2 : (bucket != "") = true := by simpa using hb
    by_cases hf : shouldFailover e = true
    · subst hbk
      simp [getObject, hb2, hf]
    · have : shouldFailover e = false := by simpa using hf
      simp [getObject, hb2, this]

/-- Witness for C2 amended at a concrete 404 failure of both buckets. -/
theorem getObject_failover_witness :
    ("backup" : String) ≠ "" ∧
    ((getObject (.error ⟨some "NoSuchKey", some 404⟩) (.error ⟨none, some 404⟩) "backup").2 = true ∧
      (getObject (.error ⟨some "NoSuchKey", some 404⟩) (.error ⟨none, some 404⟩) "backup").1 =
        .error ⟨some "NoSuchKey", some 404⟩) := by
  have h := getObject_failover (.error ⟨some "NoSuchKey", some 404⟩)
    (.error ⟨none, some 404⟩) "backup" (by decide)
  refine ⟨by decide, ?_, h.2 _ _ rfl rfl⟩
  exact h.1.mpr ⟨_, rfl, by decide⟩

/-! ## Go standard library helpers used by the handler -/

/-- Accumulate base-10 digits; none on a non-digit. -/
def digitsToNat (cs : List Char) : Option Nat :=
  cs.foldl (fun acc c =>
    match acc with
    | none => none
    | some n => if 48 ≤ c.toNat ∧ c.toNat ≤ 57 then some (n * 10 + (c.toNat - 48)) else none)
    (some 0)

/-- strconv.ParseInt(s, 10, 64): optional sign, at least one digit, all
digits, value within int64; anything else is an error. -/
def parseInt64 (s : String) : Option Int :=
  let cs := s.toList
  let sign : Int := match cs with
    | '-' :: _ => -1
    | _ => 1
  let ds := match cs with
    | '+' :: rest => rest
    | '-' :: rest => rest
    | rest => rest
  if ds.isEmpty then none
  else
    match digitsToNat ds with
    | none => none
    | some n =>
      let v : Int := sign * (n : Int)
      if v < -(2 ^ 63) ∨ v > 2 ^ 63 - 1 then none else some v

/-- strconv.Atoi with the error ignored, as the option parser calls it:
syntax errors yield 0, out-of-range values are clamped to int64. -/
def atoi (s : String) : Int :=
  let cs := s.toList
  let sign : Int := match cs with
    | '-' :: _ => -1
    | _ => 1
  let ds := match cs with
    | '+' :: rest => rest
    | '-' :: rest => rest
    | rest => rest
  if ds.isEmpty then 0
  else
    match digitsToNat ds with
    | none => 0
    | some n =>
      let v : Int := sign * (n : Int)
      if v > 2 ^ 63 - 1 then 2 ^ 63 - 1 else if v < -(2 ^ 63) then -(2 ^ 63) else v

/-- strconv.ParseFloat with the error ignored, modelled exactly on plain
decimal literals (the only shape the ts parameter uses); everything else
parses to none. -/
def parseFloatQ (s : String) : Option ℚ :=
  let cs := s.toList
  let sign : ℚ := match cs with
    | '-' :: _ => -1
    | _ => 1
  let ds := match cs with
    | '+' :: rest => rest
    | '-' :: rest => rest
    | rest => rest
  let ip := ds.takeWhile (fun c => c != '.')
  let rest2 := ds.drop ip.length
  match rest2 with
  | [] =>
    if ip.isEmpty then none
    else (digitsToNat ip).map (fun n => sign * (n : ℚ))
  | _ :: frac =>
    if (frac.any (fun c => c == '.')) ∨ (ip.isEmpty ∧ frac.isEmpty) then none
    else
      match digitsToNat ip, digitsToNat frac with
      | some i, some f => some (sign * ((i : ℚ) + (f : ℚ) / ((10 : ℚ) ^ frac.length)))
      | _, _ => none

/-- ASCII lowercase; agrees with strings.ToLower on the ASCII extension
and format strings it is applied to. -/
def toLowerAscii (s : String) : String :=
  String.mk (s.toList.map (fun c =>
    if 65 ≤ c.toNat ∧ c.toNat ≤ 90 then Char.ofNat (c.toNat + 32) else c))

/-- filepath.Ext: the suffix of the final path element from its last dot. -/
def extOf (key : String) : String :=
  let rev := key.toList.reverse
  let seg := rev.takeWhile (fun c => c != '/')
  if seg.any (fun c => c == '.') then
    String.mk ('.' :: (seg.takeWhile (fun c => c != '.')).reverse)
  else ""

/-- Does the needle occur contiguously at some position of the haystack? -/
def containsAt : List Char → List Char → Bool
  | needle, [] => needle.isEmpty
  | needle, c :: rest => needle.isPrefixOf (c :: rest) || containsAt needle rest

/-- strings.Contains: substr occurs inside s. -/
def goContains (s substr : String) : Bool := containsAt substr.toList s.toList

/-- strings.EqualFold restricted to ASCII, as used on country codes. -/
def equalFold (a b : String) : Bool := toLowerAscii a == toLowerAscii b

/-- Split on a separator character (kernel-evaluable stand-in for the
string split used below). -/
def splitCharsAux (sep : Char) : List Char → List Char → List String
  | acc, [] => [String.mk acc.reverse]
  | acc, c :: rest =>
    if c = sep then String.mk acc.reverse :: splitCharsAux sep [] rest
    else splitCharsAux sep (c :: acc) rest

def splitChars (sep : Char) (s : String) : List String := splitCharsAux sep [] s.toList

/-- Join with a separator. -/
def joinSep (sep : String) : List String → String
  | [] => ""
  | [x] => x
  | x :: y :: rest => x ++ sep ++ joinSep sep (y :: rest)

/-- The component-stack step of path cleaning: dot segments vanish, dotdot
pops (dropped at the root, kept leading when relative). -/
def cleanSegs (rooted : Bool) : List String → List String → List String
  | stack, [] => stack.reverse
  | stack, seg :: rest =>
    if seg = "" ∨ seg = "." then cleanSegs rooted stack rest
    else if seg = ".." then
      match stack with
      | top :: more =>
        if top = ".." then cleanSegs rooted (".." :: top :: more) rest
        else cleanSegs rooted more rest
      | [] => if rooted then cleanSegs rooted [] rest else cleanSegs rooted [".."] rest
    else cleanSegs rooted (seg :: stack) rest

/-- filepath.Clean composed with filepath.ToSlash on a slash-separated
path (the platform separator is the slash). -/
def cleanPath (p : String) : String :=
  if p = "" then "."
  else
    let rooted := match p.toList with
      | '/' :: _ => true
      | _ => false
    let comps := cleanSegs rooted [] (splitChars '/' p)
    let body := joinSep "/" comps
    if rooted then "/" ++ body
    else if body = "" then "." else body

/-- strings.TrimPrefix(s, the slash). -/
def trimLeadingSlash (s : String) : String :=
  match s.toList with
  | '/' :: rest => String.mk rest
  | _ => s

/-! ## Query string parsing (net/url ParseQuery) -/

def hexVal (c : Char) : Option Nat :=
  if 48 ≤ c.toNat ∧ c.toNat ≤ 57 then some (c.toNat - 48)
  else if 97 ≤ c.toNat ∧ c.toNat ≤ 102 then some (c.toNat - 87)
  else if 65 ≤ c.toNat ∧ c.toNat ≤ 70 then some (c.toNat - 55)
  else none

/-- url.QueryUnescape on the character list: plus becomes space, percent
escapes decode from two hex digits, a malformed escape is an error.
Decoded bytes are kept as chars (preset fragments are ASCII). -/
def unescapeChars : List Char → Option (List Char)
  | [] => some []
  | '%' :: a :: b :: rest =>
    match hexVal a, hexVal b with
    | some x, some y => (unescapeChars rest).map (fun l => Char.ofNat (16 * x + y) :: l)
    | _, _ => none
  | '%' :: _ => none
  | '+' :: rest => (unescapeChars rest).map (fun l => ' ' :: l)
  | c :: rest => (unescapeChars rest).map (fun l => c :: l)

/-- Append a value under a key, preserving first-insertion order of keys. -/
def addParamVal (v : Values) (k val : String) : Values :=
  match v with
  | [] => [(k, [val])]
  | p :: rest => if p.1 == k then (p.1, p.2 ++ [val]) :: rest else p :: addParamVal rest k val

/-- strings.Cut at the first equals sign; no equals means empty value. -/
def cutEq (s : String) : String × String :=
  let cs := s.toList
  let k := cs.takeWhile (fun c => c != '=')
  if k.length = cs.length then (s, "") else (String.mk k, String.mk (cs.drop (k.length + 1)))

/-- url.ParseQuery: split on ampersands, reject semicolons and bad
escapes (the segment is skipped and the error recorded), collect values
per key.  The flag is true when no error occurred. -/
def parseQuery (qs : String) : Values × Bool :=
  (splitChars '&' qs).foldl (fun acc seg =>
    if seg = "" then acc
    else if goContains seg ";" then (acc.1, false)
    else
      let kv := cutEq seg
      match unescapeChars kv.1.toList, unescapeChars kv.2.toList with
      | some kc, some vc => (addParamVal acc.1 (String.mk kc) (String.mk vc), acc.2)
      | _, _ => (acc.1, false)) ([], true)

/-! ## Image options (pkg/processor ImageOptions and the option parser in
pkg/handlers/http.go) -/

structure ImageOptions where
  width : Int := 0
  height : Int := 0
  fit : String := ""
  format : String := ""
  quality : Int := 0
  focus : String := ""
  text : String := ""
  textColor : String := ""
  textSize : ℚ := 0
  textOpacity : ℚ := 0
  font : String := ""
  effect : String := ""
  brightness : ℚ := 0
  contrast : ℚ := 0
  blurhash : Bool := false
  smartCompression : Bool := false
  animated : Bool := false
  page : Int := 0
deriving DecidableEq

/-- The plain body of parseImageOptions: read each recognised query
parameter into the options record. -/
def parseImageOptionsBase (params : Values) : ImageOptions :=
  let o : ImageOptions := {}
  let o := if getParam params "w" != "" then { o with width := atoi (getParam params "w") } else o
  let o := if getParam params "h" != "" then { o with height := atoi (getParam params "h") } else o
  let o := { o with fit := getParam params "fit", format := getParam params "format" }
  let o := if getParam params "q" != "" then { o with quality := atoi (getParam params "q") } else o
  let o := { o with focus := getParam params "focus", text := getParam params "text",
                    textColor := getParam params "color" }
  let o := if getParam params "ts" != "" then
      { o with textSize := (parseFloatQ (getParam params "ts")).getD 0 } else o
  let o := if getParam params "blurhash" == "true" || getParam params "blurhash" == "1" then
      { o with blurhash := true } else o
  if getParam params "animated" == "true" || getParam params "animated" == "1" then
    { o with animated := true } else o

def presetLookup (presets : List (String × String)) (name : String) : Option String :=
  (presets.find? (fun p => p.1 == name)).map Prod.snd

/-- parseImageOptions with named presets: when a preset parameter names a
configured preset whose stored fragment parses, re-parse that fragment as
the sole source of options (the source recurses with a nil preset map,
which reduces to the plain body); otherwise fall through to the plain
body on the original parameters. -/
def parseImageOptions (params : Values) (presets : List (String × String)) : ImageOptions :=
  if getParam params "preset" != "" && !presets.isEmpty then
    match presetLookup presets (getParam params "preset") with
    | some presetQuery =>
      let parsed := parseQuery presetQuery
      if parsed.2 then parseImageOptionsBase parsed.1 else parseImageOptionsBase params
    | none => parseImageOptionsBase params
  else parseImageOptionsBase params

def isImageFile (key : String) : Bool :=
  let ext := toLowerAscii (extOf key)
  ext == ".jpg" || ext == ".jpeg" || ext == ".png" || ext == ".gif" || ext == ".webp" ||
    ext == ".pdf"

def isVideoFile (key : String) : Bool :=
  let ext := toLowerAscii (extOf key)
  ext == ".mp4" || ext == ".mov" || ext == ".webm"

/-! ## Signature validation (pkg/handlers/http.go validateSignature) -/

/-- The canonical string: raw URL path, then a question mark when any
non-signature key exists, then key equals value pairs joined by
ampersands in sorted key order. -/
def canonicalString (path : String) (params : Values) : String :=
  let ks := List.insertionSort (· ≤ ·) ((params.map Prod.fst).filter (fun k => k != "s"))
  path ++ (if ks.length > 0 then "?" else "") ++
    joinSep "&" (ks.map (fun k => k ++ "=" ++ getParam params k))

/-- The MAC comparison: hmac.Equal of the s parameter against the
hex-lowercase HMAC-SHA-256 of the canonical string (constant-time in the
source, equality here). -/
def signatureMac (path : String) (params : Values) (secret : String) : Bool :=
  getParam params "s" == hmacSha256hex secret (canonicalString path params)

/-- validateSignature: when an expires parameter is present, a malformed
value or a current time beyond it rejects before the MAC is compared. -/
def validateSignature (path : String) (params : Values) (secret : String) (now : Int) : Bool :=
  if getParam params "expires" != "" then
    match parseInt64 (getParam params "expires") with
    | some expires =>
      if now > expires then false
      else signatureMac path params secret
    | none => false
  else signatureMac path params secret

/-! ## Transform engine (pkg/processor/processor.go Process)

The vips image operations the pipeline applies are opaque external calls;
an image value is modelled as the free term over those operations, so two
pipeline results are equal exactly when they perform the same operations
in the same order on the same input.  Flags isPDF and hasAlpha stand for
the decoded image properties the code branches on; the stage-2 geometry
result is one node recording the options that drove its vips calls. -/

inductive Img where
  | decoded (src : Nat) (page : Int)
  | flattened (i : Img)
  | geometried (i : Img) (w h : Int) (fit focus : String)
  | grayscaled (i : Img)
  | sepiaed (i : Img)
  | brightened (i : Img) (b : ℚ)
  | contrasted (i : Img) (c : ℚ)
  | wmComposited (i : Img) (wm : Nat) (opacity : ℚ)
  | textComposited (i : Img) (text color : String) (size opacity : ℚ) (font : String)
  | thumbed32 (i : Img)
  | srgbed (i : Img)
deriving DecidableEq

/-- applyEffects: grayscale, sepia, additive brightness, contrast around
mid-grey (skipped when zero, and for contrast also when exactly one). -/
def applyEffects (opts : ImageOptions) (i : Img) : Img :=
  let i := if opts.effect == "grayscale" then Img.grayscaled i else i
  let i := if opts.effect == "sepia" then Img.sepiaed i else i
  let i := if opts.brightness != 0 then Img.brightened i opts.brightness else i
  if opts.contrast != 0 && opts.contrast != 1 then Img.contrasted i opts.contrast else i

/-- Stage 3: composite the configured watermark (image and opacity). -/
def wmStage (wm : Option (Nat × ℚ)) (i : Img) : Img :=
  match wm with
  | some w => Img.wmComposited i w.1 w.2
  | none => i

/-- The font whitelist of the text overlay: ASCII alphanumerics, space,
hyphen, underscore. -/
def fontSafe (s : String) : Bool :=
  s.toList.all (fun c =>
    (97 ≤ c.toNat && c.toNat ≤ 122) || (65 ≤ c.toNat && c.toNat ≤ 90) ||
    (48 ≤ c.toNat && c.toNat ≤ 57) || c == ' ' || c == '-' || c == '_')

/-- Stage 3.5: centered SVG text overlay with defaulted size, colour,
opacity and sanitised font name. -/
def textStage (opts : ImageOptions) (i : Img) : Img :=
  if opts.text != "" then
    let size := if opts.textSize = 0 then 24 else opts.textSize
    let color := if opts.textColor = "" then "red" else opts.textColor
    let font := if opts.font = "" then "sans-serif"
      else if fontSafe opts.font then opts.font else "sans-serif"
    let opacity := if opts.textOpacity = 0 then 1 else opts.textOpacity
    Img.textComposited i opts.text color size opacity font
  else i

/-- Encode-stage format resolution: lowercase the format, or infer it from
the object key extension, defaulting to jpeg. -/
def resolveFormat (format originalKey : String) : String :=
  let f := toLowerAscii format
  if f != "" then f
  else
    let ext := toLowerAscii (extOf originalKey)
    if ext == ".png" then "png"
    else if ext == ".gif" then "gif"
    else if ext == ".webp" then "webp"
    else if ext == ".avif" then "avif"
    else if ext == ".jxl" then "jxl"
    else "jpeg"

/-- Stages 1 to 3.5 in source order: decode (with page selection), flatten
a transparent PDF to white, geometry, effects, watermark, text. -/
def pipelineImg (src : Nat) (isPDF hasAlpha : Bool) (opts : ImageOptions)
    (wm : Option (Nat × ℚ)) : Img :=
  let i := Img.decoded src opts.page
  let i := if isPDF && hasAlpha then Img.flattened i else i
  let i := if opts.width > 0 || opts.height > 0 then
      Img.geometried i opts.width opts.height opts.fit opts.focus else i
  let i := applyEffects opts i
  let i := wmStage wm i
  textStage opts i

inductive ProcOutput where
  | blurhashStr (cx cy : Nat) (i : Img)
  | encodedImg (i : Img) (format : String) (quality : Int)
deriving DecidableEq

/-- Process: after the full stage pipeline, the blurhash branch thumbnails
the current image to 32 by 32, forces sRGB and encodes with components
(4,3); otherwise the image is encoded in the resolved format. -/
def process (src : Nat) (isPDF hasAlpha : Bool) (opts : ImageOptions)
    (wm : Option (Nat × ℚ)) (originalKey : String) : ProcOutput :=
  let i := pipelineImg src isPDF hasAlpha opts wm
  if opts.blurhash then ProcOutput.blurhashStr 4 3 (Img.srgbed (Img.thumbed32 i))
  else ProcOutput.encodedImg i (resolveFormat opts.format originalKey) opts.quality

/-- The output the claim describes: blurhash (4,3) of the 32 by 32 sRGB
thumbnail of the image after geometry and effects only, untouched by
watermark and text.  Stated from the claim, for comparison with process. -/
def specBlurhashOutput (src : Nat) (isPDF hasAlpha : Bool) (opts : ImageOptions) : ProcOutput :=
  let i := Img.decoded src opts.page
  let i := if isPDF && hasAlpha then Img.flattened i else i
  let i := if opts.width > 0 || opts.height > 0 then
      Img.geometried i opts.width opts.height opts.fit opts.focus else i
  let i := applyEffects opts i
  ProcOutput.blurhashStr 4 3 (Img.srgbed (Img.thumbed32 i))

/-- C4 counterexample: with a configured watermark, the blurhash the code
returns is taken from the image after watermark compositing, so it is not
the blurhash of the 32 by 32 thumbnail of the image after geometry and
effects. -/
theorem process_blurhash_counterexample :
    process 0 false false { width := 64, height := 64, fit := "cover", blurhash := true }
        (some (7, 1 / 2)) "a.png"
      ≠ specBlurhashOutput 0 false false
          { width := 64, height := 64, fit := "cover", blurhash := true } := by
  decide

def imgDepth : Img → Nat
  | .decoded _ _ => 0
  | .flattened i => imgDepth i + 1
  | .geometried i _ _ _ _ => imgDepth i + 1
  | .grayscaled i => imgDepth i + 1
  | .sepiaed i => imgDepth i + 1
  | .brightened i _ => imgDepth i + 1
  | .contrasted i _ => imgDepth i + 1
  | .wmComposited i _ _ => imgDepth i + 1
  | .textComposited i _ _ _ _ _ => imgDepth i + 1
  | .thumbed32 i => imgDepth i + 1
  | .srgbed i => imgDepth i + 1

theorem imgDepth_textStage (opts : ImageOptions) (i : Img) :
    imgDepth i ≤ imgDepth (textStage opts i) := by
  unfold textStage
  split <;> simp [imgDepth]

theorem textStage_wmComposited_ne (opts : ImageOptions) (w : Nat × ℚ) (i : Img) :
    textStage opts (Img.wmComposited i w.1 w.2) ≠ i := by
  intro h
  have hd := congrArg imgDepth h
  have hle := imgDepth_textStage opts (Img.wmComposited i w.1 w.2)
  simp only [imgDepth] at hle hd
  omega

/-- C4 amended: when blurhash is set the output is the blurhash string with
components (4,3) of the 32 by 32 sRGB thumbnail of the image after all of
geometry, effects, watermark compositing and text overlay; whenever a
watermark is configured the output therefore differs from the blurhash of
the thumbnail taken after geometry and effects alone. -/
theorem process_blurhash (src : Nat) (isPDF hasAlpha : Bool) (opts : ImageOptions)
    (wm : Option (Nat × ℚ)) (originalKey : String) (hbh : opts.blurhash = true) :
    process src isPDF hasAlpha opts wm originalKey =
      ProcOutput.blurhashStr 4 3
        (Img.srgbed (Img.thumbed32 (pipelineImg src isPDF hasAlpha opts wm))) ∧
    (∀ w, wm = some w →
      process src isPDF hasAlpha opts wm originalKey ≠
        specBlurhashOutput src isPDF hasAlpha opts) := by
  constructor
  · simp [process, hbh]
  · intro w hw heq
    simp only [process, hbh, if_true, specBlurhashOutput, pipelineImg, hw, wmStage] at heq
    injection heq with h1 h2 h3
    injection h3 with h4
    injection h4 with h5
    exact textStage_wmComposited_ne opts w _ h5

/-- Witness for C4 amended at a concrete watermarked blurhash request. -/
theorem process_blurhash_witness :
    ({ width := 64, blurhash := true } : ImageOptions).blurhash = true ∧
    process 5 false false { width := 64, blurhash := true } (some (7, 1 / 2)) "b.jpg" =
      ProcOutput.blurhashStr 4 3
        (Img.srgbed (Img.thumbed32
          (pipelineImg 5 false false { width := 64, blurhash := true } (some (7, 1 / 2))))) ∧
    process 5 false false { width := 64, blurhash := true } (some (7, 1 / 2)) "b.jpg" ≠
      specBlurhashOutput 5 false false { width := 64, blurhash := true } := by
  have h := process_blurhash 5 false false { width := 64, blurhash := true }
    (some (7, 1 / 2)) "b.jpg" (by decide)
  exact ⟨by decide, h.1, h.2 _ rfl⟩

/-! ## The contain fit branch (processor.go lines 228 to 242)

The code computes the two per-axis float64 ratios, keeps the smaller, and
issues one uniform vips Resize; rationals stand for the float arithmetic
and vips_resize scales each axis by the given factor. -/

def containScale (imgW imgH : ℚ) (optW optH : Int) : ℚ :=
  let scale := (optW : ℚ) / imgW
  let scaleY := (optH : ℚ) / imgH
  if scaleY < scale then scaleY else scale

def containDims (imgW imgH : ℚ) (optW optH : Int) : ℚ × ℚ :=
  (imgW * containScale imgW imgH optW optH, imgH * containScale imgW imgH optW optH)

/-- C5: fit=contain scales both axes by the minimum of the width and
height ratios, preserves the aspect ratio, and the result fits inside the
requested box. -/
theorem contain_min_ratio (imgW imgH : ℚ) (optW optH : Int)
    (hw : 0 < imgW) (hh : 0 < imgH) (hW : (0 : ℚ) ≤ optW) (hH : (0 : ℚ) ≤ optH) :
    containScale imgW imgH optW optH = min ((optW : ℚ) / imgW) ((optH : ℚ) / imgH) ∧
    (containDims imgW imgH optW optH).1 = imgW * containScale imgW imgH optW optH ∧
    (containDims imgW imgH optW optH).2 = imgH * containScale imgW imgH optW optH ∧
    (containDims imgW imgH optW optH).1 * imgH = (containDims imgW imgH optW optH).2 * imgW ∧
    (containDims imgW imgH optW optH).1 ≤ optW ∧
    (containDims imgW imgH optW optH).2 ≤ optH := by
  have hmin : containScale imgW imgH optW optH
      = min ((optW : ℚ) / imgW) ((optH : ℚ) / imgH) := by
    unfold containScale
    rcases lt_or_ge ((optH : ℚ) / imgH) ((optW : ℚ) / imgW) with hlt | hge
    · simp [hlt, min_eq_right hlt.le]
    · have : ¬((optH : ℚ) / imgH < (optW : ℚ) / imgW) := not_lt.mpr hge
      simp [this, min_eq_left hge]
  refine ⟨hmin, rfl, rfl, by simp only [containDims]; ring, ?_, ?_⟩
  · have h1 : containScale imgW imgH optW optH ≤ (optW : ℚ) / imgW := by
      rw [hmin]; exact min_le_left _ _
    calc imgW * containScale imgW imgH optW optH
        ≤ imgW * ((optW : ℚ) / imgW) := by
          exact mul_le_mul_of_nonneg_left h1 hw.le
      _ = optW := by field_simp
  · have h2 : containScale imgW imgH optW optH ≤ (optH : ℚ) / imgH := by
      rw [hmin]; exact min_le_right _ _
    calc imgH * containScale imgW imgH optW optH
        ≤ imgH * ((optH : ℚ) / imgH) := by
          exact mul_le_mul_of_nonneg_left h2 hh.le
      _ = optH := by field_simp

/-- Witness for C5: a 200 by 400 input into a 100 by 100 contain box fits
the box and comes out as 50 by 100. -/
theorem contain_min_ratio_witness :
    (0 : ℚ) < 200 ∧ (0 : ℚ) < 400 ∧ ((0 : ℚ) ≤ ((100 : Int) : ℚ)) ∧
    (containDims 200 400 100 100).1 ≤ ((100 : Int) : ℚ) ∧
    (containDims 200 400 100 100).2 ≤ ((100 : Int) : ℚ) ∧
    containDims 200 400 100 100 = (50, 100) := by
  have h := contain_min_ratio 200 400 100 100
    (by norm_num) (by norm_num) (by norm_num) (by norm_num)
  exact ⟨by norm_num, by norm_num, by norm_num, h.2.2.2.2.1, h.2.2.2.2.2,
    by norm_num [containDims, containScale, Prod.ext_iff]⟩

/-! ## Cache tiers (pkg/cache/memory.go, redis.go and the tiered cache)

A ristretto or redis entry is a value with an optional absolute expiry
time; per the ristretto SetWithTTL contract (and SET with expiration zero
in redis) a ttl of zero stores the entry with no expiry at all, and a
negative ttl stores nothing. -/

structure MemEntry where
  val : List Nat
  expireAt : Option Int
deriving DecidableEq

abbrev MemState := List (String × MemEntry)

/-- NewMemoryCache builds an empty ristretto cache from size and byte
limits; its defaultTTL parameter is accepted but never used. -/
def newMemoryCache (size limitBytes defaultTTL : Int) : MemState := []

/-- MemoryCache.Set forwards the given ttl to ristretto SetWithTTL. -/
def memSet (st : MemState) (key : String) (value : List Nat) (ttl now : Int) : MemState :=
  if ttl < 0 then st
  else (key, ⟨value, if ttl = 0 then none else some (now + ttl)⟩) ::
    st.filter (fun p => p.1 != key)

def memGet (st : MemState) (key : String) (now : Int) : Option (List Nat) :=
  match st.find? (fun p => p.1 == key) with
  | some p =>
    match p.2.expireAt with
    | none => some p.2.val
    | some t => if now < t then some p.2.val else none
  | none => none

def memDelete (st : MemState) (key : String) : MemState :=
  st.filter (fun p => p.1 != key)

/-- TieredCache.Get: try L1, then L2; on an L2 hit back-populate L1 with a
ttl of 0.  Returns the value and the updated L1 state. -/
def tieredGet (l1 : MemState) (l2 : Option MemState) (key : String) (now : Int) :
    Option (List Nat) × MemState :=
  match memGet l1 key now with
  | some v => (some v, l1)
  | none =>
    match l2 with
    | some r2 =>
      match memGet r2 key now with
      | some v => (some v, memSet l1 key v 0 now)
      | none => (none, l1)
    | none => (none, l1)

/-- TieredCache.Set writes both tiers. -/
def tieredSet (l1 : MemState) (l2 : Option MemState) (key : String) (value : List Nat)
    (ttl now : Int) : MemState × Option MemState :=
  (memSet l1 key value ttl now, l2.map (fun r => memSet r key value ttl now))

/-- TieredCache.Delete deletes from both tiers. -/
def tieredDelete (l1 : MemState) (l2 : Option MemState) (key : String) :
    MemState × Option MemState :=
  (memDelete l1 key, l2.map (fun r => memDelete r key))

/-- C9: evaluating the code at the failing input.  A remote-tier hit at
time 1000, with the memory tier built with default TTL 60, back-populates
memory with ttl 0; ristretto stores that entry with no expiry, so it is
still served at any later time, for example a billion seconds later, far
beyond the configured default; and NewMemoryCache discards its defaultTTL
argument entirely, so no tier default exists for ttl 0 to denote. -/
theorem tieredGet_backpopulate_no_expiry :
    (tieredGet (newMemoryCache 100 0 60) (some [("k", ⟨[1], none⟩)]) "k" 1000).1 = some [1] ∧
    memGet (tieredGet (newMemoryCache 100 0 60) (some [("k", ⟨[1], none⟩)]) "k" 1000).2
        "k" 1000000000 = some [1] ∧
    newMemoryCache 100 0 60 = newMemoryCache 100 0 0 :=
  ⟨rfl, rfl, rfl⟩

/-! ## The request pipeline (pkg/handlers/http.go HandleRequest)

The handler is modelled as a pure step function over a request, a
configuration snapshot and a world state.  Side effects (cache lookups,
disk access, origin fetches) are recorded in an effect trace and the world
state is threaded through.  Sub-results of external collaborators that the
code only branches on (the regex and URL-host matching of the domain
allowlist, the rate limiter verdict, the image and video codecs, the
stream compressor) are fields of the world state. -/

inductive Method where
  | get
  | delete
deriving DecidableEq

structure Request where
  method : Method
  urlPath : String
  query : Values
  referer : String
  origin : String
  country1 : String
  country2 : String
  accept : String
  acceptEncoding : String
  ifNoneMatch : String

structure Config where
  secretKey : String := ""
  allowedDomains : List String := []
  allowedCountries : List String := []
  rateLimit : Int := 0
  presets : List (String × String) := []
  enableVideoThumbnail : Bool := false
  cacheTTL : Int := 86400
  maxImageSizeMB : Int := 0
  defaultImagePath : String := ""

structure DiskEntry where
  content : List Nat
  mtime : Int
deriving DecidableEq

structure Env where
  now : Int
  mem : MemState
  remote : Option MemState
  hasCache : Bool
  hasLimiter : Bool
  rateAllow : Bool
  refererMatch : Bool
  originMatch : Bool
  disk : List (String × DiskEntry)
  originStore : List (String × List Nat)
  procResult : List Nat → ImageOptions → Option (List Nat)
  videoResult : List Nat → ImageOptions → Option (List Nat)
  encodeBody : String → List Nat → List Nat

inductive Effect where
  | cacheGet (key : String)
  | cacheSet (key : String)
  | cacheDelete (key : String)
  | diskStat (key : String)
  | diskRead (key : String)
  | diskWrite (key : String)
  | diskRemove (key : String)
  | originFetch (objectKey : String)
  | revalidate (key : String)
deriving DecidableEq

inductive Response where
  | forbiddenDomain
  | forbiddenCountry
  | tooManyRequests
  | invalidPath
  | missingSignature
  | invalidSignature
  | purged
  | notModified
  | servedCache (data : List Nat) (plainText : Bool)
  | servedFile (data : List Nat)
  | servedDefault
  | notFound
  | internalError
deriving DecidableEq

def Response.status : Response → Int
  | .forbiddenDomain => 403
  | .forbiddenCountry => 403
  | .tooManyRequests => 429
  | .invalidPath => 400
  | .missingSignature => 403
  | .invalidSignature => 403
  | .purged => 200
  | .notModified => 304
  | .servedCache _ _ => 200
  | .servedFile _ => 200
  | .servedDefault => 200
  | .notFound => 404
  | .internalError => 500

structure HResult where
  resp : Response
  effects : List Effect
  world : Env

/-- Section 0 of the handler: domain allowlist.  The outcome of the host
and regex matching of each header is a world-state field; the structure
(empty headers allow, a present non-matching pair rejects, and the check
only runs when a list is configured) follows the source. -/
def domainReject (cfg : Config) (env : Env) (req : Request) : Bool :=
  if cfg.allowedDomains.isEmpty then false
  else
    let allowed := (req.referer != "" && env.refererMatch) ||
      (req.origin != "" && env.originMatch) ||
      (req.referer == "" && req.origin == "")
    !allowed && (req.referer != "" || req.origin != "")

/-- Section 0.2: country allowlist over the two country headers; a missing
header allows, a present one must match case-insensitively. -/
def countryReject (cfg : Config) (req : Request) : Bool :=
  if cfg.allowedCountries.isEmpty then false
  else
    let country := if req.country1 != "" then req.country1 else req.country2
    if country != "" then !(cfg.allowedCountries.any (fun c => equalFold c country))
    else false

/-- Section 0.5: rate limiting applies when a positive limit and a limiter
are configured; the per-IP verdict is a world-state field. -/
def rateReject (cfg : Config) (env : Env) : Bool :=
  decide (cfg.rateLimit > 0) && env.hasLimiter && !env.rateAllow

/-- Section 1: the signature gate runs when a secret is configured and the
query is nonempty; a missing s parameter or a failed validation rejects. -/
def sigRejection (cfg : Config) (env : Env) (req : Request) : Option Response :=
  if cfg.secretKey != "" && !req.query.isEmpty then
    if getParam req.query "s" == "" then some .missingSignature
    else if !(validateSignature req.urlPath req.query cfg.secretKey env.now) then
      some .invalidSignature
    else none
  else none

/-- Option derivation for a GET: parse (with presets), default a video
thumbnail to jpeg, then negotiate avif or webp from the Accept header for
an image with no explicit format. -/
def imageOptsOf (cfg : Config) (req : Request) (objectKey : String) : ImageOptions :=
  let o := parseImageOptions req.query cfg.presets
  let o := if isVideoFile objectKey && cfg.enableVideoThumbnail && o.format == "" then
      { o with format := "jpeg" } else o
  if isImageFile objectKey && o.format == "" then
    if goContains req.accept "image/avif" then { o with format := "avif" }
    else if goContains req.accept "image/webp" then { o with format := "webp" }
    else o
  else o

/-- The should-process predicate shared by GET and DELETE. -/
def shouldProcessOf (cfg : Config) (objectKey : String) (o : ImageOptions) : Bool :=
  (isImageFile objectKey &&
    (decide (o.width > 0) || decide (o.height > 0) || o.fit != "" || o.format != "" ||
      o.blurhash)) ||
  (isVideoFile objectKey && cfg.enableVideoThumbnail)

/-- Passthrough content negotiation: brotli, then gzip, else identity. -/
def encodingTypeOf (req : Request) : String :=
  if goContains req.acceptEncoding "br" then "br"
  else if goContains req.acceptEncoding "gzip" then "gzip"
  else "identity"

/-- The cache key a GET derives: processed keys hash the (negotiated)
format, passthrough keys hash the negotiated encoding. -/
def requestCacheKey (cfg : Config) (req : Request) (objectKey : String) : String :=
  let o := imageOptsOf cfg req objectKey
  if shouldProcessOf cfg objectKey o then generateKeyProcessed objectKey req.query o.format
  else generateKeyOriginal objectKey (encodingTypeOf req)

/-- The cache key a DELETE derives: the same should-process rule, but the
options come from the raw parse (no Accept negotiation, no video jpeg
default) and passthrough always uses identity encoding. -/
def purgeCacheKey (cfg : Config) (req : Request) (objectKey : String) : String :=
  let o := parseImageOptions req.query cfg.presets
  if shouldProcessOf cfg objectKey o then generateKeyProcessed objectKey req.query o.format
  else generateKeyOriginal objectKey "identity"

/-- handlePurge: derive the key with the same should-process rule (but
always identity encoding and the options parsed without Accept-based
negotiation), delete it from the cache provider (both tiers) and remove
the disk file. -/
def handlePurge (cfg : Config) (env : Env) (req : Request) (objectKey : String) : HResult :=
  let key := purgeCacheKey cfg req objectKey
  let cacheEff : List Effect := if env.hasCache then [.cacheDelete key] else []
  let env2 := if env.hasCache then
      { env with mem := (tieredDelete env.mem env.remote key).1,
                 remote := (tieredDelete env.mem env.remote key).2 }
    else env
  let env3 := { env2 with disk := env2.disk.filter (fun p => p.1 != key) }
  ⟨.purged, cacheEff ++ [.diskRemove key], env3⟩

inductive PipeErr where
  | notFoundErr
  | sizeErr
  | procErr
deriving DecidableEq

/-- fetchAndSave: stream the object from origin and commit it to disk
through the chosen compressor; no bytes are returned for tier populate. -/
def fetchAndSaveRun (env : Env) (objectKey destKey encodingType : String) :
    Except PipeErr (Option (List Nat)) × List Effect × Env :=
  match env.originStore.find? (fun p => p.1 == objectKey) with
  | none => (.error .notFoundErr, [.originFetch objectKey], env)
  | some p =>
    (.ok none, [.originFetch objectKey, .diskWrite destKey],
      { env with disk := (destKey, ⟨env.encodeBody encodingType p.2, env.now⟩) ::
          env.disk.filter (fun q => q.1 != destKey) })

/-- processAndSave: fetch, enforce the size cap, run the image pipeline
(with the configured watermark inside the codec oracle), commit with
identity encoding and return the bytes. -/
def processAndSaveRun (cfg : Config) (env : Env) (objectKey destKey : String)
    (o : ImageOptions) : Except PipeErr (List Nat) × List Effect × Env :=
  match env.originStore.find? (fun p => p.1 == objectKey) with
  | none => (.error .notFoundErr, [.originFetch objectKey], env)
  | some p =>
    if decide (cfg.maxImageSizeMB > 0) &&
        decide ((p.2.length : Int) > cfg.maxImageSizeMB * 1024 * 1024) then
      (.error .sizeErr, [.originFetch objectKey], env)
    else
      match env.procResult p.2 o with
      | none => (.error .procErr, [.originFetch objectKey], env)
      | some data =>
        (.ok data, [.originFetch objectKey, .diskWrite destKey],
          { env with disk := (destKey, ⟨data, env.now⟩) ::
              env.disk.filter (fun q => q.1 != destKey) })

/-- processVideoAndSave: download the video, extract and post-process the
frame (the ffmpeg and image pipeline composition is the video oracle),
commit and return the bytes. -/
def processVideoAndSaveRun (env : Env) (objectKey destKey : String) (o : ImageOptions) :
    Except PipeErr (List Nat) × List Effect × Env :=
  match env.originStore.find? (fun p => p.1 == objectKey) with
  | none => (.error .notFoundErr, [.originFetch objectKey], env)
  | some p =>
    match env.videoResult p.2 o with
    | none => (.error .procErr, [.originFetch objectKey], env)
    | some data =>
      (.ok data, [.originFetch objectKey, .diskWrite destKey],
        { env with disk := (destKey, ⟨data, env.now⟩) ::
            env.disk.filter (fun q => q.1 != destKey) })

/-- updateCache: processed paths populate the cache provider (both tiers)
with the produced bytes when nonempty; passthrough only writes disk. -/
def updateCacheRun (cfg : Config) (env : Env) (objectKey destKey : String)
    (o : ImageOptions) (encodingType : String) (sp isVideo : Bool) :
    Except PipeErr (Option (List Nat)) × List Effect × Env :=
  if sp then
    let r := if isVideo && cfg.enableVideoThumbnail then
        processVideoAndSaveRun env objectKey destKey o
      else processAndSaveRun cfg env objectKey destKey o
    match r with
    | (.ok data, eff, env2) =>
      if env2.hasCache && decide (data.length > 0) then
        (.ok (some data), eff ++ [.cacheSet destKey],
          { env2 with
            mem := (tieredSet env2.mem env2.remote destKey data cfg.cacheTTL env2.now).1,
            remote := (tieredSet env2.mem env2.remote destKey data cfg.cacheTTL env2.now).2 })
      else (.ok (some data), eff, env2)
    | (.error e, eff, env2) => (.error e, eff, env2)
  else fetchAndSaveRun env objectKey destKey encodingType

/-- Disk probe, stale-while-revalidate and the coalesced miss path.  The
stale branch records the fire-and-forget refresh as an effect only (it
runs on a background context).  The double FileExists check inside the
singleflight body sees the same state and is recorded as a second stat. -/
def diskAndMiss (cfg : Config) (env : Env) (objectKey : String) (o : ImageOptions)
    (sp isVideo : Bool) (cacheKey encodingType : String) (eff0 : List Effect) : HResult :=
  match env.disk.find? (fun p => p.1 == cacheKey) with
  | some entry =>
    if decide (env.now - entry.2.mtime > cfg.cacheTTL) then
      ⟨.servedFile entry.2.content,
        eff0 ++ [.diskStat cacheKey, .revalidate cacheKey, .diskRead cacheKey], env⟩
    else
      ⟨.servedFile entry.2.content, eff0 ++ [.diskStat cacheKey, .diskRead cacheKey], env⟩
  | none =>
    let r := updateCacheRun cfg env objectKey cacheKey o encodingType sp isVideo
    match r.1 with
    | .ok _ =>
      match r.2.2.disk.find? (fun p => p.1 == cacheKey) with
      | some entry =>
        ⟨.servedFile entry.2.content,
          eff0 ++ [.diskStat cacheKey, .diskStat cacheKey] ++ r.2.1 ++ [.diskRead cacheKey],
          r.2.2⟩
      | none =>
        ⟨.internalError, eff0 ++ [.diskStat cacheKey, .diskStat cacheKey] ++ r.2.1, r.2.2⟩
    | .error e =>
      match e with
      | .notFoundErr =>
        if cfg.defaultImagePath != "" then
          ⟨.servedDefault, eff0 ++ [.diskStat cacheKey, .diskStat cacheKey] ++ r.2.1, r.2.2⟩
        else ⟨.notFound, eff0 ++ [.diskStat cacheKey, .diskStat cacheKey] ++ r.2.1, r.2.2⟩
      | .sizeErr =>
        ⟨.internalError, eff0 ++ [.diskStat cacheKey, .diskStat cacheKey] ++ r.2.1, r.2.2⟩
      | .procErr =>
        ⟨.internalError, eff0 ++ [.diskStat cacheKey, .diskStat cacheKey] ++ r.2.1, r.2.2⟩

/-- The GET flow after the signature gate: options, should-process, cache
key and encoding, the ETag short-circuit, the memory and remote probe
(back-populating memory on a remote hit), then disk and miss handling. -/
def getFlow (cfg : Config) (env : Env) (req : Request) (objectKey : String) : HResult :=
  let o := imageOptsOf cfg req objectKey
  let sp := shouldProcessOf cfg objectKey o
  let isVideo := isVideoFile objectKey
  let cacheKey := requestCacheKey cfg req objectKey
  let encodingType := if sp then "identity" else encodingTypeOf req
  let etag := "\"" ++ cacheKey ++ "\""
  if req.ifNoneMatch != "" && goContains req.ifNoneMatch etag then
    ⟨.notModified, [], env⟩
  else if env.hasCache then
    let tg := tieredGet env.mem env.remote cacheKey env.now
    match tg.1 with
    | some data =>
      ⟨.servedCache data o.blurhash, [.cacheGet cacheKey], { env with mem := tg.2 }⟩
    | none =>
      diskAndMiss cfg { env with mem := tg.2 } objectKey o sp isVideo cacheKey encodingType
        [.cacheGet cacheKey]
  else
    diskAndMiss cfg env objectKey o sp isVideo cacheKey encodingType []

/-- The object key: slash-normalise and clean the URL path, strip one
leading slash. -/
def objectKeyOf (req : Request) : String := trimLeadingSlash (cleanPath req.urlPath)

/-- The path rejection test: a key containing dotdot anywhere, the exact
dotfile name .env, or the empty key. -/
def badKey (k : String) : Bool := goContains k ".." || k == ".env" || k == ""

/-- HandleRequest: guard order (domain, country, rate), path cleaning and
validation, signature gate, then DELETE purge or the GET flow. -/
def handleRequest (cfg : Config) (env : Env) (req : Request) : HResult :=
  if domainReject cfg env req then ⟨.forbiddenDomain, [], env⟩
  else if countryReject cfg req then ⟨.forbiddenCountry, [], env⟩
  else if rateReject cfg env then ⟨.tooManyRequests, [], env⟩
  else
    let objectKey := objectKeyOf req
    if badKey objectKey then
      ⟨.invalidPath, [], env⟩
    else
      match sigRejection cfg env req with
      | some r => ⟨r, [], env⟩
      | none =>
        if req.method = Method.delete then handlePurge cfg env req objectKey
        else getFlow cfg env req objectKey

/-! ## Claim theorems over the request pipeline -/

/-- Expiry handling inside validateSignature: a present expires parameter
that is malformed or in the past makes validation fail, with no condition
on the s parameter. -/
theorem validateSignature_expired (path : String) (params : Values) (secret : String) (now : Int)
    (hexp : getParam params "expires" ≠ "")
    (hbad : parseInt64 (getParam params "expires") = none ∨
      ∃ e, parseInt64 (getParam params "expires") = some e ∧ now > e) :
    validateSignature path params secret now = false := by
  have hexpB : (getParam params "expires" != "") = true := by simpa using hexp
  rcases hbad with hnone | ⟨e, he, hgt⟩
  · simp [validateSignature, hexpB, hnone]
  · simp [validateSignature, hexpB, he, hgt]

/-- C3: a request carrying an expires parameter is answered 403 with no
cache, disk or origin effect whenever the current unix time exceeds the
expires value or the value is not a well-formed integer; the conclusion
holds for every value of the s parameter, valid MAC included, because the
expiry test precedes the MAC comparison. -/
theorem expired_request_403 (cfg : Config) (env : Env) (req : Request)
    (hd : domainReject cfg env req = false)
    (hc : countryReject cfg req = false)
    (hr : rateReject cfg env = false)
    (hpath : badKey (objectKeyOf req) = false)
    (hsecret : cfg.secretKey ≠ "")
    (hexp : getParam req.query "expires" ≠ "")
    (hbad : parseInt64 (getParam req.query "expires") = none ∨
      ∃ e, parseInt64 (getParam req.query "expires") = some e ∧ env.now > e) :
    (handleRequest cfg env req).resp.status = 403 ∧
    (handleRequest cfg env req).effects = [] := by
  have hsecB : (cfg.secretKey != "") = true := by simpa using hsecret
  have hq : req.query ≠ [] := by
    intro h
    apply hexp
    rw [h]
    rfl
  have hqB : (!req.query.isEmpty) = true := by
    cases hql : req.query with
    | nil => exact absurd hql hq
    | cons a t => simp
  have hvs := validateSignature_expired req.urlPath req.query cfg.secretKey env.now hexp hbad
  by_cases hs : (getParam req.query "s" == "") = true
  · have hsig : sigRejection cfg env req = some .missingSignature := by
      simp [sigRejection, hsecB, hqB, hs]
    simp [handleRequest, hd, hc, hr, hpath, hsig, Response.status]
  · have hsB : (getParam req.query "s" == "") = false := by simpa using hs
    have hsig : sigRejection cfg env req = some .invalidSignature := by
      simp [sigRejection, hsecB, hqB, hsB, hvs]
    simp [handleRequest, hd, hc, hr, hpath, hsig, Response.status]

def stdEnv : Env where
  now := 10
  mem := []
  remote := none
  hasCache := false
  hasLimiter := false
  rateAllow := true
  refererMatch := false
  originMatch := false
  disk := []
  originStore := []
  procResult := fun _ _ => none
  videoResult := fun _ _ => none
  encodeBody := fun _ b => b

def blankReq : Request where
  method := .get
  urlPath := "/a.png"
  query := []
  referer := ""
  origin := ""
  country1 := ""
  country2 := ""
  accept := ""
  acceptEncoding := ""
  ifNoneMatch := ""

/-- Witness for C3 at the concrete expired request from the spec boundary
table. -/
theorem expired_request_403_witness :
    (({ secretKey := "k" } : Config).secretKey ≠ "") ∧
    getParam [("expires", ["5"]), ("s", ["abc"])] "expires" ≠ "" ∧
    (handleRequest { secretKey := "k" } stdEnv
        { blankReq with query := [("expires", ["5"]), ("s", ["abc"])] }).resp.status = 403 ∧
    (handleRequest { secretKey := "k" } stdEnv
        { blankReq with query := [("expires", ["5"]), ("s", ["abc"])] }).effects = [] := by
  have h := expired_request_403 { secretKey := "k" } stdEnv
    { blankReq with query := [("expires", ["5"]), ("s", ["abc"])] }
    (by decide) (by decide) (by decide) (by decide) (by decide) (by decide)
    (Or.inr ⟨5, by decide, by decide⟩)
  exact ⟨by decide, by decide, h.1, h.2⟩

/-- C10: a GET that clears the guard, path and signature gates and whose
If-None-Match header contains the derived cache key wrapped in double
quotes is answered 304 with an empty effect trace and an unchanged world:
no memory or remote lookup, no disk access and no origin fetch happen,
whatever the cache and origin contents are. -/
theorem etag_shortcircuit (cfg : Config) (env : Env) (req : Request)
    (hd : domainReject cfg env req = false)
    (hc : countryReject cfg req = false)
    (hr : rateReject cfg env = false)
    (hpath : badKey (objectKeyOf req) = false)
    (hsig : sigRejection cfg env req = none)
    (hm : req.method = .get)
    (hinm : req.ifNoneMatch ≠ "")
    (hmatch : goContains req.ifNoneMatch
      ("\"" ++ requestCacheKey cfg req (objectKeyOf req) ++ "\"") = true) :
    handleRequest cfg env req = ⟨.notModified, [], env⟩ := by
  have hinmB : (req.ifNoneMatch != "") = true := by simpa using hinm
  have hmne : ¬(req.method = Method.delete) := by
    rw [hm]
    intro hcontra
    exact Method.noConfusion hcontra
  simp [handleRequest, hd, hc, hr, hpath, hsig, hmne, getFlow, hinmB, hmatch]

def c10Req : Request :=
  { blankReq with
    urlPath := "/a.bin"
    ifNoneMatch := "\"" ++ generateKeyOriginal "a.bin" "identity" ++ "\"" }

/-- Witness for C10 at a concrete conditional request whose If-None-Match
carries the derived key, with every tier empty and no origin object. -/
theorem etag_shortcircuit_witness :
    badKey (objectKeyOf c10Req) = false ∧
    goContains c10Req.ifNoneMatch
      ("\"" ++ requestCacheKey {} c10Req (objectKeyOf c10Req) ++ "\"") = true ∧
    handleRequest {} stdEnv c10Req = ⟨.notModified, [], stdEnv⟩ := by
  refine ⟨by decide, by decide, ?_⟩
  exact etag_shortcircuit {} stdEnv c10Req (by decide) (by decide) (by decide) (by decide)
    (by decide) (by decide) (by decide) (by decide)

/-- C6 counterexample: a query that carries preset equal missing, a name
not among the configured presets, keeps every caller-supplied parameter:
the caller width 100 takes effect, so the options are not derived solely
from any stored preset fragment. -/
theorem parseImageOptions_preset_counterexample :
    (parseImageOptions [("preset", ["missing"]), ("w", ["100"])] [("thumb", "w=50")]).width
        = 100 ∧
    parseImageOptions [("preset", ["missing"]), ("w", ["100"])] [("thumb", "w=50")] =
      parseImageOptionsBase [("preset", ["missing"]), ("w", ["100"])] := by
  exact ⟨by decide, by decide⟩

/-- C6 amended: when the preset parameter names a configured preset whose
stored fragment parses as a query string, the options derive solely from
that fragment and every caller-supplied transform parameter is discarded;
otherwise (unknown preset name, empty preset map, or unparsable fragment)
the caller parameters are used normally. -/
theorem parseImageOptions_preset (params : Values) (presets : List (String × String))
    (frag : String) (pp : Values)
    (hne : getParam params "preset" ≠ "")
    (hlk : presetLookup presets (getParam params "preset") = some frag)
    (hpq : parseQuery frag = (pp, true)) :
    parseImageOptions params presets = parseImageOptionsBase pp := by
  have hneB : (getParam params "preset" != "") = true := by simpa using hne
  have hnonempty : (!presets.isEmpty) = true := by
    cases presets with
    | nil => simp [presetLookup] at hlk
    | cons a t => simp
  simp [parseImageOptions, hneB, hnonempty, hlk, hpq]

/-- Witness for C6 amended: preset thumb replaces the caller width 100 by
the fragment width 50 and height 60. -/
theorem parseImageOptions_preset_witness :
    getParam [("preset", ["thumb"]), ("w", ["100"])] "preset" ≠ "" ∧
    presetLookup [("thumb", "w=50&h=60")] "thumb" = some "w=50&h=60" ∧
    parseImageOptions [("preset", ["thumb"]), ("w", ["100"])] [("thumb", "w=50&h=60")] =
      parseImageOptionsBase [("w", ["50"]), ("h", ["60"])] ∧
    (parseImageOptions [("preset", ["thumb"]), ("w", ["100"])] [("thumb", "w=50&h=60")]).width
      = 50 := by
  refine ⟨by decide, by decide, ?_, by decide⟩
  exact parseImageOptions_preset [("preset", ["thumb"]), ("w", ["100"])]
    [("thumb", "w=50&h=60")] "w=50&h=60" [("w", ["50"]), ("h", ["60"])]
    (by decide) (by decide) (by decide)

theorem diskAndMiss_resp_ne_invalidPath (cfg : Config) (env : Env) (objectKey : String)
    (o : ImageOptions) (sp isVideo : Bool) (cacheKey encodingType : String)
    (eff0 : List Effect) :
    (diskAndMiss cfg env objectKey o sp isVideo cacheKey encodingType eff0).resp
      ≠ .invalidPath := by
  simp only [diskAndMiss]
  rcases hfind : List.find? (fun p => p.1 == cacheKey) env.disk with _ | entry
  · rcases hres : (updateCacheRun cfg env objectKey cacheKey o encodingType sp isVideo).1
      with a | e
    · simp only [hfind, hres]
      repeat' split
      all_goals simp
    · simp only [hfind, hres]
      cases e
      all_goals repeat' split
      all_goals simp
  · simp only [hfind]
    repeat' split
    all_goals simp

theorem getFlow_resp_ne_invalidPath (cfg : Config) (env : Env) (req : Request)
    (objectKey : String) :
    (getFlow cfg env req objectKey).resp ≠ .invalidPath := by
  simp only [getFlow]
  repeat' split
  all_goals first
    | apply diskAndMiss_resp_ne_invalidPath
    | simp

theorem sigRejection_cases (cfg : Config) (env : Env) (req : Request) :
    sigRejection cfg env req = none ∨
    sigRejection cfg env req = some .missingSignature ∨
    sigRejection cfg env req = some .invalidSignature := by
  unfold sigRejection
  split
  · split
    · simp
    · cases hv : validateSignature req.urlPath req.query cfg.secretKey env.now <;> simp [hv]
  · simp

def c7GitReq : Request := { blankReq with urlPath := "/.git" }

def c7RootReq : Request := { blankReq with urlPath := "/" }

def c7RateEnv : Env :=
  { stdEnv with
    hasLimiter := true
    rateAllow := false }

/-- C7 counterexample: the dotfile key .git is not rejected, the request
proceeds to the origin and is answered 404, not 400; and a rate-limited
request with an empty key is answered 429 before the path check, so the
400 rejection is not issued before the guard. -/
theorem path_validation_counterexample :
    objectKeyOf c7GitReq = ".git" ∧
    badKey ".git" = false ∧
    (handleRequest {} stdEnv c7GitReq).resp = .notFound ∧
    Response.status (handleRequest {} stdEnv c7GitReq).resp ≠ 400 ∧
    badKey (objectKeyOf c7RootReq) = true ∧
    (handleRequest { rateLimit := 1 } c7RateEnv c7RootReq).resp = .tooManyRequests := by
  refine ⟨by decide, by decide, by decide, by decide, by decide, by decide⟩

/-- C7 amended: after the domain, country and rate guards pass, the
handler answers 400 with no cache, disk or origin effect exactly for the
keys that are empty, contain the substring dotdot anywhere (also inside a
file name, not only as a path component), or equal the literal name .env
(other dotfiles pass); this happens before the signature gate and all
cache, disk and origin work, as the empty effects and untouched world show. -/
theorem path_validation (cfg : Config) (env : Env) (req : Request)
    (hd : domainReject cfg env req = false)
    (hc : countryReject cfg req = false)
    (hr : rateReject cfg env = false) :
    (badKey (objectKeyOf req) = true → handleRequest cfg env req = ⟨.invalidPath, [], env⟩) ∧
    (badKey (objectKeyOf req) = false → (handleRequest cfg env req).resp ≠ .invalidPath) := by
  constructor
  · intro hbk
    simp [handleRequest, hd, hc, hr, hbk]
  · intro hbk
    simp only [handleRequest, hd, hc, hr, hbk, Bool.false_eq_true, if_false]
    rcases sigRejection_cases cfg env req with h | h | h
    · simp only [h]
      by_cases hm : req.method = Method.delete
      · simp [hm, handlePurge]
      · simp only [hm, if_false]
        exact getFlow_resp_ne_invalidPath cfg env req (objectKeyOf req)
    · simp [h]
    · simp [h]

/-- Witness for C7 amended at the concrete dotfile .env. -/
theorem path_validation_witness :
    badKey (objectKeyOf { blankReq with urlPath := "/.env" }) = true ∧
    handleRequest {} stdEnv { blankReq with urlPath := "/.env" } =
      ⟨.invalidPath, [], stdEnv⟩ := by
  refine ⟨by decide, ?_⟩
  exact (path_validation {} stdEnv { blankReq with urlPath := "/.env" }
    (by decide) (by decide) (by decide)).1 (by decide)

theorem find?_filter_ne {α : Type} (st : List (String × α)) (key : String) :
    (st.filter (fun p => p.1 != key)).find? (fun p => p.1 == key) = none := by
  induction st with
  | nil => rfl
  | cons x t ih =>
    by_cases hx : (x.1 == key) = true
    · have hxf : (x.1 != key) = false := by
        simp only [bne]
        simpa using hx
      simp [List.filter_cons, hxf, ih]
    · have hxne : (x.1 != key) = true := by
        simp only [bne]
        simpa using hx
      have hxb : (x.1 == key) = false := by simpa using hx
      simp [List.filter_cons, hxne, List.find?_cons, hxb, ih]

theorem memGet_memDelete (st : MemState) (key : String) (t : Int) :
    memGet (memDelete st key) key t = none := by
  have h := find?_filter_ne st key
  simp only [memGet, memDelete, h]

theorem tieredGet_deleted (m : MemState) (r : Option MemState) (key : String) (now : Int) :
    tieredGet (memDelete m key) (r.map (fun x => memDelete x key)) key now
      = (none, memDelete m key) := by
  cases r <;> simp [tieredGet, memGet_memDelete]

theorem originFetch_mem_fetchAndSaveRun (env : Env) (objectKey destKey enc : String) :
    Effect.originFetch objectKey ∈ (fetchAndSaveRun env objectKey destKey enc).2.1 := by
  simp only [fetchAndSaveRun]
  rcases hf : env.originStore.find? (fun p => p.1 == objectKey) with _ | p <;> simp [hf]

theorem originFetch_mem_processAndSaveRun (cfg : Config) (env : Env)
    (objectKey destKey : String) (o : ImageOptions) :
    Effect.originFetch objectKey ∈ (processAndSaveRun cfg env objectKey destKey o).2.1 := by
  simp only [processAndSaveRun]
  rcases hf : env.originStore.find? (fun p => p.1 == objectKey) with _ | p
  · simp [hf]
  · simp only [hf]
    split
    · simp
    · rcases hp : env.procResult p.2 o with _ | d <;> simp [hp]

theorem originFetch_mem_processVideoAndSaveRun (env : Env) (objectKey destKey : String)
    (o : ImageOptions) :
    Effect.originFetch objectKey ∈ (processVideoAndSaveRun env objectKey destKey o).2.1 := by
  simp only [processVideoAndSaveRun]
  rcases hf : env.originStore.find? (fun p => p.1 == objectKey) with _ | p
  · simp [hf]
  · simp only [hf]
    rcases hp : env.videoResult p.2 o with _ | d <;> simp [hp]

theorem originFetch_mem_updateCacheRun (cfg : Config) (env : Env) (objectKey destKey : String)
    (o : ImageOptions) (enc : String) (sp isVideo : Bool) :
    Effect.originFetch objectKey ∈
      (updateCacheRun cfg env objectKey destKey o enc sp isVideo).2.1 := by
  by_cases hsp : sp = true
  · by_cases hv : (isVideo && cfg.enableVideoThumbnail) = true
    · have hmem := originFetch_mem_processVideoAndSaveRun env objectKey destKey o
      simp only [updateCacheRun, hsp, hv, if_true]
      rcases hres : processVideoAndSaveRun env objectKey destKey o with ⟨res, eff, env2⟩
      rw [hres] at hmem
      cases res with
      | ok d =>
        by_cases hcs : (env2.hasCache && decide (d.length > 0)) = true
        · simp [hcs, hmem]
        · have hcsF : (env2.hasCache && decide (d.length > 0)) = false := by simpa using hcs
          simp [hcsF, hmem]
      | error e => simp_all
    · have hvF : (isVideo && cfg.enableVideoThumbnail) = false := by simpa using hv
      have hmem := originFetch_mem_processAndSaveRun cfg env objectKey destKey o
      simp only [updateCacheRun, hsp, hvF, if_true, Bool.false_eq_true, if_false]
      rcases hres : processAndSaveRun cfg env objectKey destKey o with ⟨res, eff, env2⟩
      rw [hres] at hmem
      cases res with
      | ok d =>
        by_cases hcs : (env2.hasCache && decide (d.length > 0)) = true
        · simp [hcs, hmem]
        · have hcsF : (env2.hasCache && decide (d.length > 0)) = false := by simpa using hcs
          simp [hcsF, hmem]
      | error e => simp_all
  · have hspF : sp = false := by simpa using hsp
    simp only [updateCacheRun, hspF, Bool.false_eq_true, if_false]
    exact originFetch_mem_fetchAndSaveRun env objectKey destKey enc

theorem originFetch_mem_diskAndMiss (cfg : Config) (env : Env) (objectKey : String)
    (o : ImageOptions) (sp isVideo : Bool) (cacheKey encodingType : String) (eff0 : List Effect)
    (hdisk : env.disk.find? (fun p => p.1 == cacheKey) = none) :
    Effect.originFetch objectKey ∈
      (diskAndMiss cfg env objectKey o sp isVideo cacheKey encodingType eff0).effects := by
  have hm := originFetch_mem_updateCacheRun cfg env objectKey cacheKey o encodingType sp isVideo
  simp only [diskAndMiss, hdisk]
  repeat' split
  all_goals simp_all

theorem originFetch_mem_getFlow (cfg : Config) (env : Env) (req : Request) (objectKey : String)
    (hinm : req.ifNoneMatch = "")
    (htier : tieredGet env.mem env.remote (requestCacheKey cfg req objectKey) env.now
      = (none, env.mem))
    (hdisk : env.disk.find? (fun p => p.1 == requestCacheKey cfg req objectKey) = none) :
    Effect.originFetch objectKey ∈ (getFlow cfg env req objectKey).effects := by
  have hinmB : (req.ifNoneMatch != "") = false := by simp [hinm]
  by_cases hcache : env.hasCache = true
  · simp only [getFlow, hinmB, Bool.false_and, Bool.false_eq_true, if_false, hcache, if_true,
      htier]
    exact originFetch_mem_diskAndMiss cfg _ objectKey _ _ _ _ _ _ hdisk
  · have hcacheF : env.hasCache = false := by simpa using hcache
    simp only [getFlow, hinmB, Bool.false_and, Bool.false_eq_true, if_false, hcacheF]
    exact originFetch_mem_diskAndMiss cfg _ objectKey _ _ _ _ _ _ hdisk

def c8Env : Env :=
  { stdEnv with
    now := 0
    hasCache := true
    mem := [(generateKeyOriginal "file.bin" "gzip", ⟨[9], none⟩)]
    originStore := [("file.bin", [7])] }

def c8DelReq : Request := { blankReq with method := .delete, urlPath := "/file.bin" }

def c8GetReq : Request := { blankReq with urlPath := "/file.bin", acceptEncoding := "gzip" }

/-- C8 counterexample: purging file.bin with no parameters deletes only
the identity-encoding variant, while a GET with Accept-Encoding gzip for
the same key and parameters derives the gzip key; after the purge that
GET is a memory-cache hit and performs no origin fetch, so it is not a
miss that re-fetches. -/
theorem purge_gzip_counterexample :
    (handleRequest {} c8Env c8DelReq).resp = .purged ∧
    purgeCacheKey {} c8DelReq "file.bin" ≠ generateKeyOriginal "file.bin" "gzip" ∧
    (handleRequest {} (handleRequest {} c8Env c8DelReq).world c8GetReq).resp
      = .servedCache [9] false ∧
    ((handleRequest {} (handleRequest {} c8Env c8DelReq).world c8GetReq).effects.all
      (fun e => match e with
        | .originFetch _ => false
        | _ => true)) = true := by
  refine ⟨by decide, by decide, by decide, by decide⟩

/-- A GET that clears all gates and whose derived key misses the cache
tiers and the disk goes to origin. -/
theorem originFetch_after_miss (cfg : Config) (W : Env) (getReq : Request) (key : String)
    (hm2 : getReq.method = .get) (hinm2 : getReq.ifNoneMatch = "")
    (hd2 : domainReject cfg W getReq = false) (hc2 : countryReject cfg getReq = false)
    (hr2 : rateReject cfg W = false) (hpath2 : badKey (objectKeyOf getReq) = false)
    (hsig2 : sigRejection cfg W getReq = none)
    (hkey : requestCacheKey cfg getReq (objectKeyOf getReq) = key)
    (htier : tieredGet W.mem W.remote key W.now = (none, W.mem))
    (hdisk : W.disk.find? (fun p => p.1 == key) = none) :
    Effect.originFetch (objectKeyOf getReq) ∈ (handleRequest cfg W getReq).effects := by
  have hmne : ¬(getReq.method = Method.delete) := by
    rw [hm2]
    intro hco
    exact Method.noConfusion hco
  have hflow : handleRequest cfg W getReq = getFlow cfg W getReq (objectKeyOf getReq) := by
    simp [handleRequest, hd2, hc2, hr2, hpath2, hsig2, hmne]
  rw [hflow]
  apply originFetch_mem_getFlow
  · exact hinm2
  · rw [hkey]
    exact htier
  · rw [hkey]
    exact hdisk

/-- C8 amended: a DELETE computes its key by the same should-process rule
as GET but from the raw parameter parse with identity encoding (no
Accept-based format or encoding negotiation); it removes exactly that
variant from the memory tier, the remote tier and the disk file, and any
subsequent GET that derives that same cache key misses every tier and
fetches from origin.  Variants under other negotiated keys survive the
purge. -/
theorem purge_then_refetch (cfg : Config) (env : Env) (delReq getReq : Request)
    (hd : domainReject cfg env delReq = false)
    (hc : countryReject cfg delReq = false)
    (hr : rateReject cfg env = false)
    (hpath : badKey (objectKeyOf delReq) = false)
    (hsig : sigRejection cfg env delReq = none)
    (hm : delReq.method = .delete)
    (hcc : env.hasCache = true) :
    (handleRequest cfg env delReq).resp = .purged ∧
    (handleRequest cfg env delReq).effects =
      [.cacheDelete (purgeCacheKey cfg delReq (objectKeyOf delReq)),
       .diskRemove (purgeCacheKey cfg delReq (objectKeyOf delReq))] ∧
    (∀ t, memGet (handleRequest cfg env delReq).world.mem
      (purgeCacheKey cfg delReq (objectKeyOf delReq)) t = none) ∧
    (∀ r2 t, (handleRequest cfg env delReq).world.remote = some r2 →
      memGet r2 (purgeCacheKey cfg delReq (objectKeyOf delReq)) t = none) ∧
    ((handleRequest cfg env delReq).world.disk.find?
      (fun p => p.1 == purgeCacheKey cfg delReq (objectKeyOf delReq)) = none) ∧
    (∀ (_ : getReq.method = .get) (_ : getReq.ifNoneMatch = "")
       (_ : domainReject cfg (handleRequest cfg env delReq).world getReq = false)
       (_ : countryReject cfg getReq = false)
       (_ : rateReject cfg (handleRequest cfg env delReq).world = false)
       (_ : badKey (objectKeyOf getReq) = false)
       (_ : sigRejection cfg (handleRequest cfg env delReq).world getReq = none)
       (_ : requestCacheKey cfg getReq (objectKeyOf getReq)
         = purgeCacheKey cfg delReq (objectKeyOf delReq)),
      Effect.originFetch (objectKeyOf getReq) ∈
        (handleRequest cfg (handleRequest cfg env delReq).world getReq).effects) := by
  have h1 : handleRequest cfg env delReq
      = handlePurge cfg env delReq (objectKeyOf delReq) := by
    simp [handleRequest, hd, hc, hr, hpath, hsig, hm]
  have h2 : handlePurge cfg env delReq (objectKeyOf delReq) =
      ⟨.purged,
        [.cacheDelete (purgeCacheKey cfg delReq (objectKeyOf delReq)),
         .diskRemove (purgeCacheKey cfg delReq (objectKeyOf delReq))],
        { env with
          mem := memDelete env.mem (purgeCacheKey cfg delReq (objectKeyOf delReq))
          remote := env.remote.map
            (fun r => memDelete r (purgeCacheKey cfg delReq (objectKeyOf delReq)))
          disk := env.disk.filter
            (fun p => p.1 != purgeCacheKey cfg delReq (objectKeyOf delReq)) }⟩ := by
    simp [handlePurge, hcc, tieredDelete]
  rw [h1, h2]
  refine ⟨rfl, rfl, ?_, ?_, ?_, ?_⟩
  · intro t
    exact memGet_memDelete env.mem _ t
  · intro r2 t hr2
    cases henv : env.remote with
    | none =>
      rw [henv] at hr2
      simp at hr2
    | some m2 =>
      rw [henv] at hr2
      simp only [Option.map] at hr2
      cases hr2
      exact memGet_memDelete m2 _ t
  · exact find?_filter_ne env.disk _
  · intro hm2 hinm2 hd2 hc2 hr2 hpath2 hsig2 hkey
    exact originFetch_after_miss cfg _ getReq _ hm2 hinm2 hd2 hc2 hr2 hpath2 hsig2 hkey
      (tieredGet_deleted env.mem env.remote _ _) (find?_filter_ne env.disk _)

def c8wEnv : Env :=
  { stdEnv with
    hasCache := true
    mem := [(generateKeyOriginal "file.bin" "identity", ⟨[5], none⟩)]
    disk := [(generateKeyOriginal "file.bin" "identity", ⟨[5], 0⟩)]
    originStore := [("file.bin", [7])] }

def c8wGetReq : Request := { blankReq with urlPath := "/file.bin" }

/-- Witness for C8 amended: purge of file.bin, then a plain GET deriving
the same identity key, which goes back to origin. -/
theorem purge_then_refetch_witness :
    (handleRequest {} c8wEnv c8DelReq).resp = .purged ∧
    Effect.originFetch "file.bin" ∈
      (handleRequest {} (handleRequest {} c8wEnv c8DelReq).world c8wGetReq).effects := by
  have h := purge_then_refetch {} c8wEnv c8DelReq c8wGetReq
    (by decide) (by decide) (by decide) (by decide) (by decide) (by decide) (by decide)
  refine ⟨h.1, ?_⟩
  have h6 := h.2.2.2.2.2 (by decide) (by decide) (by decide) (by decide) (by decide)
    (by decide) (by decide) (by decide)
  have hobj : objectKeyOf c8wGetReq = "file.bin" := by decide
  rw [hobj] at h6
  exact h6
